import Mathlib

/-!
Verification of `play_frequency.py` (rotarymars/frequency_player).

The script synthesizes sine-wave sample buffers and plays them.  We embed:
 * the numeric synthesis (`play_frequency` / `play_multiple_frequencies`
   wave construction) over `ℝ`, following the numpy expressions;
 * the observable side effects (prints, playback, visualization thread) as
   explicit event traces;
 * the `__main__` command-line dispatch over `ℚ` (decimal literals parse
   exactly into `ℚ`), returning either an error exit or a routine call.
-/

namespace FreqPlayer

/-- Python `int()` applied to a real value truncates toward zero. -/
noncomputable def pyInt (x : ℝ) : ℤ := if 0 ≤ x then ⌊x⌋ else ⌈x⌉

/-- `np.linspace(start, stop, num, endpoint=False)`: `num` evenly spaced
values starting at `start` with step `(stop - start) / num`. -/
noncomputable def linspace (start stop : ℝ) (num : ℕ) : List ℝ :=
  (List.range num).map (fun (i : ℕ) => start + (stop - start) * (i : ℝ) / num)

/-- The time array `t = np.linspace(0, duration, int(sample_rate * duration),
endpoint=False)` shared by both synthesis routines
(`play_frequency.py` lines 76 and 116). -/
noncomputable def timeArray (duration sample_rate : ℝ) : List ℝ :=
  linspace 0 duration (pyInt (sample_rate * duration)).toNat

/-- The sine-wave buffer built by `play_frequency` (lines 76-80):
`wave = amplitude * np.sin(2 * np.pi * frequency * t); wave *= 10`. -/
noncomputable def play_frequency_wave (frequency duration sample_rate amplitude : ℝ) :
    List ℝ :=
  let t := timeArray duration sample_rate
  let wave := t.map (fun ti => amplitude * Real.sin (2 * Real.pi * frequency * ti))
  wave.map (fun x => x * 10)

/-- The mixing loop of `play_multiple_frequencies` (lines 119-121):
`wave = np.zeros_like(t)` then `wave += np.sin(2 * np.pi * freq * t)` for
each `freq`; numpy `+=` on equal-length arrays is pointwise addition. -/
noncomputable def mix (t : List ℝ) (frequencies : List ℝ) : List ℝ :=
  frequencies.foldl
    (fun wave freq =>
      List.zipWith (· + ·) wave (t.map (fun ti => Real.sin (2 * Real.pi * freq * ti))))
    (t.map (fun _ => 0))

/-- The buffer built by `play_multiple_frequencies` (lines 116-127): mix the
sinusoids, divide by the number of frequencies, then apply the amplitude. -/
noncomputable def play_multiple_frequencies_wave (frequencies : List ℝ)
    (duration sample_rate amplitude : ℝ) : List ℝ :=
  let t := timeArray duration sample_rate
  let wave := mix t frequencies
  let wave := wave.map (fun x => x / (frequencies.length : ℝ))
  wave.map (fun x => amplitude * x)

/-- `Σ_j sin(2π·f_j·ti)`, the value each mixed sample is built from. -/
noncomputable def sineSum (frequencies : List ℝ) (ti : ℝ) : ℝ :=
  (frequencies.map (fun freq => Real.sin (2 * Real.pi * freq * ti))).sum

/-! ### Observable effects

Each side-effecting statement of the two playback routines becomes one
event; a routine's body becomes the list of events it performs in order. -/

/-- One observable action of the script. -/
inductive Event where
  /-- `print` of a fixed string. -/
  | print (s : String)
  /-- `print(f"Playing {frequency} Hz for {duration} seconds...")`. -/
  | printPlayingSingle (frequency duration : ℝ)
  /-- The two `print`s announcing a multi-frequency playback (lines 130-132). -/
  | printPlayingMulti (frequencies : List ℝ) (duration : ℝ)
  /-- Starting the `visualize_waveform` thread on the buffer. -/
  | startViz (wave : List ℝ) (sample_rate duration : ℝ)
  /-- `sd.play(wave, sample_rate)`. -/
  | play (wave : List ℝ) (sample_rate : ℝ)
  /-- `sd.wait()`. -/
  | waitPlayback
  /-- `viz_thread.join()`. -/
  | joinViz

/-- Event trace of `play_frequency` (lines 65-98). -/
noncomputable def play_frequency (frequency duration sample_rate amplitude : ℝ) :
    List Event :=
  let wave := play_frequency_wave frequency duration sample_rate amplitude
  [Event.printPlayingSingle frequency duration,
   Event.startViz wave sample_rate duration,
   Event.play wave sample_rate,
   Event.waitPlayback,
   Event.joinViz,
   Event.print "Done!"]

/-- Event trace of `play_multiple_frequencies` (lines 101-147).  On an empty
list (`if not frequencies`) it prints a diagnostic and returns at once. -/
noncomputable def play_multiple_frequencies (frequencies : List ℝ)
    (duration sample_rate amplitude : ℝ) : List Event :=
  match frequencies with
  | [] => [Event.print "Error: No frequencies provided"]
  | _ =>
    let wave := play_multiple_frequencies_wave frequencies duration sample_rate amplitude
    [Event.printPlayingMulti frequencies duration,
     Event.startViz wave sample_rate duration,
     Event.play wave sample_rate,
     Event.waitPlayback,
     Event.joinViz,
     Event.print "Done!"]

/-! ### Command-line parsing (`__main__`, lines 150-186)

Numeric arguments go through Python `float()`.  We model `float()`'s full
acceptance grammar on ASCII strings — optional surrounding ASCII
whitespace, optional sign, then `inf`/`infinity`/`nan` (case-insensitive)
or a decimal literal with optional underscores between digits and an
optional exponent — and evaluate decimal literals exactly into `ℚ`.
(CPython additionally accepts non-ASCII decimal digits and whitespace;
claims quantifying over parse failures are therefore stated for ASCII
arguments, on which this model agrees with `float()` exactly.) -/

/-- The six ASCII whitespace characters `float()` and `str.strip()`
discard around their input. -/
def pyIsSpace (c : Char) : Bool :=
  c == ' ' || c == '\t' || c == '\n' || c == '\r' || c == '\x0b' || c == '\x0c'

/-- Python `str.strip()` (ASCII): remove leading and trailing whitespace. -/
def pyStrip (cs : List Char) : List Char :=
  ((cs.dropWhile pyIsSpace).reverse.dropWhile pyIsSpace).reverse

/-- Value of a list of decimal digits. -/
def digitsVal (l : List Char) : ℕ :=
  l.foldl (fun acc c => 10 * acc + (c.toNat - 48)) 0

/-- Drop PEP-515 underscore separators before evaluating a digit group. -/
def dropUnderscores (cs : List Char) : List Char :=
  cs.filter (fun c => !(c == '_'))

/-- Continuation of a digit group after its first digit: digits with
single underscores allowed only between two digits. -/
def digitsURest : List Char → Bool
  | [] => true
  | '_' :: c :: cs => c.isDigit && digitsURest cs
  | ['_'] => false
  | c :: cs => c.isDigit && digitsURest cs

/-- A `digitpart`: one or more digits, underscores only between digits. -/
def digitsU (cs : List Char) : Bool :=
  match cs with
  | c :: rest => c.isDigit && digitsURest rest
  | [] => false

/-- Split at the first `e`/`E`, separating mantissa from exponent text. -/
def splitAtExp : List Char → List Char × Option (List Char)
  | [] => ([], none)
  | c :: cs =>
    if c == 'e' || c == 'E' then ([], some cs)
    else
      let p := splitAtExp cs
      (c :: p.1, p.2)

/-- A mantissa: `D`, `D.`, `D.D` or `.D` with `D` a digitpart; evaluated
exactly. -/
def parseMantissa (cs : List Char) : Option ℚ :=
  match cs.splitOn '.' with
  | [ip] => if digitsU ip then some (digitsVal (dropUnderscores ip) : ℚ) else none
  | [ip, fp] =>
    if ip = [] then
      if digitsU fp then
        some ((digitsVal (dropUnderscores fp) : ℚ) / 10 ^ (dropUnderscores fp).length)
      else none
    else if fp = [] then
      if digitsU ip then some (digitsVal (dropUnderscores ip) : ℚ) else none
    else
      if digitsU ip && digitsU fp then
        some ((digitsVal (dropUnderscores ip) : ℚ)
          + (digitsVal (dropUnderscores fp) : ℚ) / 10 ^ (dropUnderscores fp).length)
      else none
  | _ => none

/-- An exponent's text after the `e`: optional sign then a digitpart. -/
def parseExpDigits (cs : List Char) : Option ℤ :=
  match cs with
  | '+' :: ds => if digitsU ds then some (digitsVal (dropUnderscores ds) : ℤ) else none
  | '-' :: ds => if digitsU ds then some (-(digitsVal (dropUnderscores ds) : ℤ)) else none
  | ds => if digitsU ds then some (digitsVal (dropUnderscores ds) : ℤ) else none

/-- An unsigned decimal literal with optional exponent, evaluated exactly
(`"1e3"` is `1000`; floating-point rounding is outside this real-valued
embedding, consistently with the synthesis model). -/
def parseDecimal (cs : List Char) : Option ℚ :=
  match splitAtExp cs with
  | (mant, none) => parseMantissa mant
  | (mant, some ecs) =>
    match parseMantissa mant, parseExpDigits ecs with
    | some m, some e => some (m * (10:ℚ) ^ e)
    | _, _ => none

/-- A successfully parsed Python float: a finite value, a signed infinity
or a NaN. -/
inductive PyFloat where
  | finite (q : ℚ)
  | infinite (neg : Bool)
  | nan
deriving DecidableEq

/-- The body after the optional sign: `inf`/`infinity`/`nan` in any case,
or a decimal literal. -/
def pyFloatBody (neg : Bool) (body : List Char) : Option PyFloat :=
  let lower := body.map Char.toLower
  if lower = ['i', 'n', 'f'] || lower = ['i', 'n', 'f', 'i', 'n', 'i', 't', 'y'] then
    some (PyFloat.infinite neg)
  else if lower = ['n', 'a', 'n'] then
    some PyFloat.nan
  else
    (parseDecimal body).map (fun q => PyFloat.finite (if neg then -q else q))

/-- CPython `float()` on an ASCII string: strip whitespace, take an
optional sign, then parse the body. -/
def pyFloatParse (cs : List Char) : Option PyFloat :=
  match pyStrip cs with
  | '+' :: t => pyFloatBody false t
  | '-' :: t => pyFloatBody true t
  | t => pyFloatBody false t

/-- Bridge into the rational pipeline the dispatch carries.  `inf`/`nan`
parse successfully — so the program proceeds to play, never to the error
path — but their non-finite values have no image in `ℚ`; they are mapped
to 0 here, and no claim's statement ranges over them. -/
def PyFloat.toRat : PyFloat → ℚ
  | PyFloat.finite q => q
  | PyFloat.infinite _ => 0
  | PyFloat.nan => 0

/-- `float()` as used by the CLI, keeping only the parsed magnitude. -/
def parseFloatChars (cs : List Char) : Option ℚ :=
  (pyFloatParse cs).map PyFloat.toRat

/-- `float()` on a string argument. -/
def parseFloat (s : String) : Option ℚ := parseFloatChars s.toList

/-- Outcome of `__main__`'s argument handling: either print diagnostics and
`sys.exit(1)`, or call one of the two playback routines. -/
inductive CliResult where
  /-- Print each message, then `sys.exit(1)`. -/
  | invalid (msgs : List String)
  /-- `play_frequency(frequency=f, duration=dur)`. -/
  | single (f dur : ℚ)
  /-- `play_multiple_frequencies(frequencies=fs, duration=dur)`. -/
  | multi (fs : List ℚ) (dur : ℚ)
deriving DecidableEq

/-- Parse `sys.argv[1]`: a comma means a comma-separated list with each
token stripped (`[float(f.strip()) for f in freq_input.split(',')]`),
otherwise a single float; `none` is the `ValueError` case. -/
def parsedFrequencies (freq_input : String) : Option (List ℚ) :=
  if freq_input.toList.contains ',' then
    (freq_input.toList.splitOn ',').mapM (fun f => parseFloatChars (pyStrip f))
  else
    (parseFloat freq_input).map (fun f => [f])

/-- Lines 175-186: parse the optional duration argument (default `2.0`),
then dispatch on the number of frequencies. -/
def withDuration (argv : List String) (frequencies : List ℚ) : CliResult :=
  if 2 < argv.length then
    match parseFloat (argv.getD 2 "") with
    | none => CliResult.invalid ["Invalid duration: " ++ argv.getD 2 ""]
    | some d =>
      match frequencies with
      | [f] => CliResult.single f d
      | _ => CliResult.multi frequencies d
  else
    match frequencies with
    | [f] => CliResult.single f 2
    | _ => CliResult.multi frequencies 2

/-- `__main__` (lines 150-186): default `[440]` and `2.0`; parse
`sys.argv[1]` when present, with the error message chosen by whether it
contains a comma; then handle the duration and dispatch.  `argv` is the
full `sys.argv`, program name included. -/
def mainDispatch (argv : List String) : CliResult :=
  if 1 < argv.length then
    let freq_input := argv.getD 1 ""
    match parsedFrequencies freq_input with
    | none =>
      if freq_input.toList.contains ',' then
        CliResult.invalid ["Invalid frequency list: " ++ freq_input,
          "Format: freq1,freq2,freq3 (e.g., 440,554,659)"]
      else
        CliResult.invalid ["Invalid frequency: " ++ freq_input]
    | some fs => withDuration argv fs
  else
    withDuration argv [440]

/-- Result of running the whole process: its event trace, and `some code`
when it terminated through `sys.exit(code)` (`none`: returned normally). -/
structure ProcResult where
  trace : List Event
  exitCode : Option ℕ

/-- Execute a `CliResult`: diagnostics exit with status 1; the dispatch
calls use the routines' default `sample_rate=44100`, `amplitude=0.3`. -/
noncomputable def runCli (c : CliResult) : ProcResult :=
  match c with
  | CliResult.invalid msgs => ⟨msgs.map Event.print, some 1⟩
  | CliResult.single f d =>
      ⟨play_frequency (f : ℝ) (d : ℝ) 44100 (3 / 10), none⟩
  | CliResult.multi fs d =>
      ⟨play_multiple_frequencies (fs.map (fun q => (q : ℝ))) (d : ℝ) 44100 (3 / 10), none⟩

/-- The whole program on a given `sys.argv`. -/
noncomputable def main (argv : List String) : ProcResult :=
  runCli (mainDispatch argv)

/-- The number of samples `int(sample_rate * duration)` both routines use. -/
noncomputable def numSamples (duration sample_rate : ℝ) : ℕ :=
  (pyInt (sample_rate * duration)).toNat

/-! ### Helper lemmas about the synthesized buffers -/

lemma timeArray_eq (duration sample_rate : ℝ) :
    timeArray duration sample_rate
      = linspace 0 duration (numSamples duration sample_rate) := rfl

lemma linspace_length (a b : ℝ) (n : ℕ) : (linspace a b n).length = n := by
  simp only [linspace, List.length_map, List.length_range]

lemma timeArray_length (d r : ℝ) : (timeArray d r).length = numSamples d r := by
  rw [timeArray_eq, linspace_length]

lemma linspace_getD (a b : ℝ) (n i : ℕ) (hi : i < n) :
    (linspace a b n).getD i 0 = a + (b - a) * i / n := by
  simp only [linspace, List.getD_eq_getElem?_getD, List.getElem?_map,
    List.getElem?_range, hi, if_true]
  rfl

lemma zipWith_map_same {α β : Type} (g : β → β → β) (f1 f2 : α → β)
    (l : List α) :
    List.zipWith g (l.map f1) (l.map f2) = l.map (fun x => g (f1 x) (f2 x)) := by
  induction l with
  | nil => rfl
  | cons x xs ih => simp only [List.map_cons, List.zipWith_cons_cons, ih]

lemma sineSum_nil (ti : ℝ) : sineSum [] ti = 0 := rfl

lemma sineSum_cons (f : ℝ) (fs : List ℝ) (ti : ℝ) :
    sineSum (f :: fs) ti = Real.sin (2 * Real.pi * f * ti) + sineSum fs ti := by
  simp [sineSum]

lemma mix_foldl (t fs : List ℝ) (g : ℝ → ℝ) :
    fs.foldl
      (fun wave freq =>
        List.zipWith (· + ·) wave (t.map (fun ti => Real.sin (2 * Real.pi * freq * ti))))
      (t.map g)
      = t.map (fun ti => g ti + sineSum fs ti) := by
  induction fs generalizing g with
  | nil => simp [sineSum_nil]
  | cons f fs ih =>
    rw [List.foldl_cons, zipWith_map_same, ih]
    refine List.map_congr_left fun ti _ => ?_
    rw [sineSum_cons]
    ring

lemma mix_eq_map (t fs : List ℝ) : mix t fs = t.map (sineSum fs) := by
  unfold mix
  rw [mix_foldl]
  simp

lemma play_frequency_wave_eq (f d r a : ℝ) :
    play_frequency_wave f d r a
      = (timeArray d r).map (fun ti => a * Real.sin (2 * Real.pi * f * ti) * 10) := by
  simp only [play_frequency_wave, List.map_map]
  rfl

lemma play_multiple_frequencies_wave_eq (fs : List ℝ) (d r a : ℝ) :
    play_multiple_frequencies_wave fs d r a
      = (timeArray d r).map
          (fun ti => a * (sineSum fs ti / (fs.length : ℝ))) := by
  simp only [play_multiple_frequencies_wave]
  rw [mix_eq_map, List.map_map, List.map_map]
  rfl

lemma play_frequency_wave_length (f d r a : ℝ) :
    (play_frequency_wave f d r a).length = numSamples d r := by
  rw [play_frequency_wave_eq, List.length_map, timeArray_length]

lemma play_multiple_frequencies_wave_length (fs : List ℝ) (d r a : ℝ) :
    (play_multiple_frequencies_wave fs d r a).length = numSamples d r := by
  rw [play_multiple_frequencies_wave_eq, List.length_map, timeArray_length]

lemma numSamples_eq_floor (d r : ℝ) (h : 0 ≤ r * d) :
    (numSamples d r : ℤ) = ⌊r * d⌋ := by
  rw [numSamples, pyInt, if_pos h, Int.toNat_of_nonneg (Int.floor_nonneg.mpr h)]

lemma play_frequency_wave_getD (f d r a : ℝ) (i : ℕ)
    (hi : i < numSamples d r) :
    (play_frequency_wave f d r a).getD i 0
      = a * Real.sin (2 * Real.pi * f * (d * i / (numSamples d r : ℝ))) * 10 := by
  rw [play_frequency_wave_eq, timeArray_eq]
  rw [List.getD_eq_getElem?_getD, List.getElem?_map]
  rw [show (linspace 0 d (numSamples d r))[i]?
        = some ((linspace 0 d (numSamples d r)).getD i 0) from ?_]
  · rw [linspace_getD 0 d _ i hi]
    simp only [Option.map_some', Option.getD_some]
    norm_num
  · rw [List.getD_eq_getElem?_getD, List.getElem?_eq_getElem
      (by rw [linspace_length]; exact hi)]
    rfl

lemma play_multiple_frequencies_wave_getD (fs : List ℝ) (d r a : ℝ) (i : ℕ)
    (hi : i < numSamples d r) :
    (play_multiple_frequencies_wave fs d r a).getD i 0
      = a * (sineSum fs (d * i / (numSamples d r : ℝ)) / (fs.length : ℝ)) := by
  rw [play_multiple_frequencies_wave_eq, timeArray_eq]
  rw [List.getD_eq_getElem?_getD, List.getElem?_map]
  rw [show (linspace 0 d (numSamples d r))[i]?
        = some ((linspace 0 d (numSamples d r)).getD i 0) from ?_]
  · rw [linspace_getD 0 d _ i hi]
    simp only [Option.map_some', Option.getD_some]
    norm_num
  · rw [List.getD_eq_getElem?_getD, List.getElem?_eq_getElem
      (by rw [linspace_length]; exact hi)]
    rfl

lemma abs_sineSum_le (fs : List ℝ) (ti : ℝ) :
    |sineSum fs ti| ≤ (fs.length : ℝ) := by
  induction fs with
  | nil => simp [sineSum_nil]
  | cons f fs ih =>
    rw [sineSum_cons]
    calc |Real.sin (2 * Real.pi * f * ti) + sineSum fs ti|
        ≤ |Real.sin (2 * Real.pi * f * ti)| + |sineSum fs ti| := abs_add _ _
      _ ≤ 1 + (fs.length : ℝ) := add_le_add (Real.abs_sin_le_one _) ih
      _ = ((f :: fs).length : ℝ) := by push_cast [List.length_cons]; ring

lemma numSamples_five_quarters_two : numSamples ((5:ℝ)/4) 2 = 2 := by
  have h2 : ⌊((2:ℝ) * (5/4))⌋ = 2 := by
    rw [Int.floor_eq_iff]
    norm_num
  rw [numSamples, pyInt, if_pos (by norm_num), h2]
  rfl

/-! ### Claim theorems -/

/-- C3: for every positive sample rate `r` and duration `d`, the buffers
synthesized by `play_frequency` and by `play_multiple_frequencies` both
have length `⌊r·d⌋` (numpy builds `int(sample_rate * duration)` samples). -/
theorem c3_buffer_length_floor (f : ℝ) (fs : List ℝ) (d r a : ℝ)
    (hd : 0 < d) (hr : 0 < r) :
    ((play_frequency_wave f d r a).length : ℤ) = ⌊r * d⌋ ∧
    ((play_multiple_frequencies_wave fs d r a).length : ℤ) = ⌊r * d⌋ := by
  have h0 : 0 ≤ r * d := (mul_pos hr hd).le
  rw [play_frequency_wave_length, play_multiple_frequencies_wave_length]
  exact ⟨numSamples_eq_floor d r h0, numSamples_eq_floor d r h0⟩

/-- Witness for C3: a concrete 1-second request at 44100 Hz. -/
theorem c3_buffer_length_floor_witness :
    (0:ℝ) < 1 ∧ (0:ℝ) < 44100 ∧
    (((play_frequency_wave 440 1 44100 (3/10)).length : ℤ) = ⌊(44100:ℝ) * 1⌋ ∧
     ((play_multiple_frequencies_wave [440, 554, 659] 1 44100 (3/10)).length : ℤ)
        = ⌊(44100:ℝ) * 1⌋) :=
  ⟨by norm_num, by norm_num,
    c3_buffer_length_floor 440 [440, 554, 659] 1 44100 (3/10)
      (by norm_num) (by norm_num)⟩

/-- C4 is false as stated: at sample rate `r = 2` and duration `d = 5/4`
the produced buffer has `int(2·5/4) = 2` samples, but `round(2·5/4) = 3`. -/
theorem c4_length_round_counterexample :
    ((play_frequency_wave 440 (5/4) 2 (3/10)).length : ℤ)
      ≠ round ((2:ℝ) * (5/4)) := by
  rw [play_frequency_wave_length, numSamples_five_quarters_two]
  rw [round_eq, show ((2:ℝ) * (5/4) + 1/2) = ((3:ℤ):ℝ) from by norm_num,
    Int.floor_intCast]
  decide

/-- C4 amended: for every request with `r > 0` and `d > 0` the buffer
length is the truncation `⌊r·d⌋` of `r·d`, not its nearest-integer
rounding; the two agree only when they coincide. -/
theorem c4_length_is_truncation (f : ℝ) (fs : List ℝ) (d r a : ℝ)
    (hd : 0 < d) (hr : 0 < r) :
    (play_frequency_wave f d r a).length = (⌊r * d⌋).toNat ∧
    (play_multiple_frequencies_wave fs d r a).length = (⌊r * d⌋).toNat := by
  rw [play_frequency_wave_length, play_multiple_frequencies_wave_length,
    numSamples, pyInt, if_pos (mul_pos hr hd).le]
  exact ⟨rfl, rfl⟩

/-- Witness for the amended C4 at the counterexample's non-integer `r·d`. -/
theorem c4_length_is_truncation_witness :
    (0:ℝ) < 5/4 ∧ (0:ℝ) < 2 ∧
    ((play_frequency_wave 440 (5/4) 2 (3/10)).length = (⌊(2:ℝ) * (5/4)⌋).toNat ∧
     (play_multiple_frequencies_wave [440] (5/4) 2 (3/10)).length
        = (⌊(2:ℝ) * (5/4)⌋).toNat) :=
  ⟨by norm_num, by norm_num,
    c4_length_is_truncation 440 [440] (5/4) 2 (3/10) (by norm_num) (by norm_num)⟩

/-- C5: mixing the two-element list `[f, f]` yields at every time sample
the unscaled sine `a·sin(2π·f·t_i)` — equivalently, the single-tone buffer
with its ×10 factor divided back out. -/
theorem c5_duplicate_pair_unscaled_sine (f d r a : ℝ) :
    play_multiple_frequencies_wave [f, f] d r a
      = (timeArray d r).map (fun ti => a * Real.sin (2 * Real.pi * f * ti)) ∧
    play_multiple_frequencies_wave [f, f] d r a
      = (play_frequency_wave f d r a).map (fun x => x / 10) := by
  constructor
  · rw [play_multiple_frequencies_wave_eq]
    refine List.map_congr_left fun ti _ => ?_
    rw [sineSum_cons, sineSum_cons, sineSum_nil]
    simp only [List.length_cons, List.length_nil]
    push_cast
    ring
  · rw [play_multiple_frequencies_wave_eq, play_frequency_wave_eq, List.map_map]
    refine List.map_congr_left fun ti _ => ?_
    simp only [Function.comp_apply]
    rw [sineSum_cons, sineSum_cons, sineSum_nil]
    simp only [List.length_cons, List.length_nil]
    push_cast
    ring

/-- C6: in the multi-tone routine, every synthesized sample has absolute
value at most the amplitude `a` (amplitudes are nonnegative per the data
model), because the sum of `n` sines is divided by `n` before scaling. -/
theorem c6_multi_samples_bounded (fs : List ℝ) (d r a : ℝ)
    (hfs : fs ≠ []) (ha : 0 ≤ a) :
    ∀ x ∈ play_multiple_frequencies_wave fs d r a, |x| ≤ a := by
  intro x hx
  rw [play_multiple_frequencies_wave_eq] at hx
  obtain ⟨ti, -, rfl⟩ := List.mem_map.mp hx
  have hn0 : (0:ℝ) < (fs.length : ℝ) := by
    exact_mod_cast List.length_pos.mpr hfs
  have hb := abs_sineSum_le fs ti
  rw [abs_mul, abs_of_nonneg ha, abs_div, abs_of_pos hn0]
  calc a * (|sineSum fs ti| / (fs.length : ℝ))
      ≤ a * ((fs.length : ℝ) / (fs.length : ℝ)) :=
        mul_le_mul_of_nonneg_left ((div_le_div_iff_of_pos_right hn0).mpr hb) ha
    _ = a := by rw [div_self (ne_of_gt hn0), mul_one]

/-- Witness for C6: the spec's round-trip chord request. -/
theorem c6_multi_samples_bounded_witness :
    (([440, 554, 659] : List ℝ) ≠ []) ∧ (0:ℝ) ≤ 3/10 ∧
    ∀ x ∈ play_multiple_frequencies_wave [440, 554, 659] 1 44100 (3/10),
      |x| ≤ 3/10 :=
  ⟨by simp, by norm_num,
    c6_multi_samples_bounded [440, 554, 659] 1 44100 (3/10)
      (by simp) (by norm_num)⟩

/-- C1 is false as stated: the code samples `np.linspace` at
`t_i = i·d/⌊r·d⌋`, not at `i/r`.  At `f = 2`, `d = 5/4`, `r = 2`, `a = 1`
the buffer has 2 samples and sample 1 is `sin(5π/2)·10 = 10`, while the
claimed formula `a·sin(2π·f·(1/r))·10 = sin(2π)·10` gives 0. -/
theorem c1_sample_formula_counterexample :
    (play_frequency_wave 2 (5/4) 2 1).getD 1 0
      ≠ 1 * Real.sin (2 * Real.pi * 2 * ((1:ℕ) / (2:ℝ))) * 10 := by
  have h1 := play_frequency_wave_getD 2 (5/4) 2 1 1
    (by rw [numSamples_five_quarters_two]; norm_num)
  rw [h1, numSamples_five_quarters_two]
  rw [show (2 * Real.pi * 2 * ((5:ℝ)/4 * (1:ℕ) / ((2:ℕ):ℝ)))
        = Real.pi / 2 + 2 * Real.pi from by push_cast; ring]
  rw [Real.sin_add_two_pi, Real.sin_pi_div_two]
  rw [show (2 * Real.pi * 2 * ((1:ℕ) / (2:ℝ))) = 2 * Real.pi from by
    push_cast; ring]
  rw [Real.sin_two_pi]
  norm_num

/-- C1 amended: the single-tone buffer's sample `i` is
`a·sin(2π·f·t_i)·10` with `t_i = i·d/N`, `N = ⌊r·d⌋`; when `r·d` is an
integer (so `N = r·d`, as with the default `r = 44100` and an integral
number of total samples) this is the claimed `t_i = i/r`. -/
theorem c1_single_sample_formula (f d r a : ℝ) (i : ℕ)
    (hd : 0 < d) (hr : 0 < r)
    (hint : r * d = (numSamples d r : ℝ)) (hi : i < numSamples d r) :
    (play_frequency_wave f d r a).getD i 0
      = a * Real.sin (2 * Real.pi * f * (i / r)) * 10 := by
  rw [play_frequency_wave_getD f d r a i hi]
  rw [show (d * (i:ℝ) / (numSamples d r : ℝ)) = (i:ℝ) / r from ?_]
  rw [← hint]
  field_simp
  ring

/-- Witness for the amended C1: one second at one hertz sample rate,
sample 0. -/
theorem c1_single_sample_formula_witness :
    (0:ℝ) < 1 ∧ (0:ℝ) < 1 ∧ (1:ℝ) * 1 = (numSamples 1 1 : ℝ) ∧
    0 < numSamples 1 1 ∧
    (play_frequency_wave 440 1 1 (3/10)).getD 0 0
      = (3/10) * Real.sin (2 * Real.pi * 440 * ((0:ℕ) / (1:ℝ))) * 10 := by
  have hN : numSamples 1 1 = 1 := by
    rw [numSamples, pyInt, if_pos (by norm_num)]
    rw [show ((1:ℝ) * 1) = ((1:ℤ):ℝ) from by norm_num, Int.floor_intCast]
    rfl
  refine ⟨by norm_num, by norm_num, by rw [hN]; norm_num, by rw [hN]; norm_num, ?_⟩
  exact c1_single_sample_formula 440 1 1 (3/10) 0 (by norm_num) (by norm_num)
    (by rw [hN]; norm_num) (by rw [hN]; norm_num)

/-- C2 is false as stated for the same reason as C1: the time samples are
`t_i = i·d/⌊r·d⌋`, not `i/r`.  At `fs = [2]`, `d = 5/4`, `r = 2`, `a = 1`
sample 1 is `sin(5π/2)/1 = 1`, while the claimed formula gives
`sin(2π)/1 = 0`. -/
theorem c2_sample_formula_counterexample :
    (play_multiple_frequencies_wave [2] (5/4) 2 1).getD 1 0
      ≠ 1 * (sineSum [2] ((1:ℕ) / (2:ℝ)) / (([2]:List ℝ).length : ℝ)) := by
  have h1 := play_multiple_frequencies_wave_getD [2] (5/4) 2 1 1
    (by rw [numSamples_five_quarters_two]; norm_num)
  rw [h1, numSamples_five_quarters_two]
  rw [sineSum_cons, sineSum_nil, sineSum_cons, sineSum_nil]
  rw [show (2 * Real.pi * 2 * ((5:ℝ)/4 * (1:ℕ) / ((2:ℕ):ℝ)))
        = Real.pi / 2 + 2 * Real.pi from by push_cast; ring]
  rw [Real.sin_add_two_pi, Real.sin_pi_div_two]
  rw [show (2 * Real.pi * 2 * ((1:ℕ) / (2:ℝ))) = 2 * Real.pi from by
    push_cast; ring]
  rw [Real.sin_two_pi]
  norm_num

/-- C2 amended: the multi-tone buffer's sample `i` is
`a·(Σ_j sin(2π·f_j·t_i))/n` with `t_i = i·d/N`, `N = ⌊r·d⌋` — the sum is
divided by the count before amplitude scaling and no ×10 factor appears;
`t_i = i/r` holds exactly when `r·d` is an integer. -/
theorem c2_multi_sample_formula (fs : List ℝ) (d r a : ℝ) (i : ℕ)
    (hd : 0 < d) (hr : 0 < r)
    (hint : r * d = (numSamples d r : ℝ)) (hi : i < numSamples d r) :
    (play_multiple_frequencies_wave fs d r a).getD i 0
      = a * (sineSum fs ((i:ℝ) / r) / (fs.length : ℝ)) := by
  rw [play_multiple_frequencies_wave_getD fs d r a i hi]
  rw [show (d * (i:ℝ) / (numSamples d r : ℝ)) = (i:ℝ) / r from ?_]
  rw [← hint]
  field_simp
  ring

/-- Witness for the amended C2 at a concrete integral `r·d`. -/
theorem c2_multi_sample_formula_witness :
    (0:ℝ) < 1 ∧ (0:ℝ) < 1 ∧ (1:ℝ) * 1 = (numSamples 1 1 : ℝ) ∧
    0 < numSamples 1 1 ∧
    (play_multiple_frequencies_wave [440, 554] 1 1 (3/10)).getD 0 0
      = (3/10) * (sineSum [440, 554] ((0:ℕ) / (1:ℝ))
          / (([440, 554] : List ℝ).length : ℝ)) := by
  have hN : numSamples 1 1 = 1 := by
    rw [numSamples, pyInt, if_pos (by norm_num)]
    rw [show ((1:ℝ) * 1) = ((1:ℤ):ℝ) from by norm_num, Int.floor_intCast]
    rfl
  refine ⟨by norm_num, by norm_num, by rw [hN]; norm_num, by rw [hN]; norm_num, ?_⟩
  exact c2_multi_sample_formula [440, 554] 1 1 (3/10) 0 (by norm_num)
    (by norm_num) (by rw [hN]; norm_num) (by rw [hN]; norm_num)

/-- C7: called with an empty frequency list, `play_multiple_frequencies`
performs exactly one diagnostic print, makes no playback call (and builds
no buffer to play or visualize), and returns normally — its whole trace is
the single print. -/
theorem c7_empty_frequencies_diagnostic (d r a : ℝ) :
    play_multiple_frequencies [] d r a
      = [Event.print "Error: No frequencies provided"] ∧
    ∀ w sr, Event.play w sr ∉ play_multiple_frequencies [] d r a := by
  refine ⟨rfl, fun w sr h => ?_⟩
  rw [show play_multiple_frequencies [] d r a
        = [Event.print "Error: No frequencies provided"] from rfl] at h
  simp at h

/-- C10: on the same single-frequency request the two entry points differ
by exactly the constant factor 10: the `play_frequency` buffer is the
`play_multiple_frequencies` buffer for `[f]` scaled by 10, sample for
sample. -/
theorem c10_single_is_ten_times_multi (f d r a : ℝ) :
    play_frequency_wave f d r a
      = (play_multiple_frequencies_wave [f] d r a).map (fun x => 10 * x) := by
  rw [play_multiple_frequencies_wave_eq, play_frequency_wave_eq, List.map_map]
  refine List.map_congr_left fun ti _ => ?_
  simp only [Function.comp_apply]
  rw [sineSum_cons, sineSum_nil]
  simp only [List.length_cons, List.length_nil]
  push_cast
  ring

/-- C9: with any program name, the argument `"440"` alone dispatches to
`play_frequency` with frequency 440 and the default duration 2.0, and the
argument `"440,554,659"` dispatches to `play_multiple_frequencies` with
exactly those three frequencies in order (default duration 2.0). -/
theorem c9_cli_dispatch (name : String) :
    mainDispatch [name, "440"] = CliResult.single 440 2
    ∧ (main [name, "440"]).trace = play_frequency 440 2 44100 (3/10)
    ∧ mainDispatch [name, "440,554,659"] = CliResult.multi [440, 554, 659] 2
    ∧ (main [name, "440,554,659"]).trace
        = play_multiple_frequencies [440, 554, 659] 2 44100 (3/10) := by
  have hs : mainDispatch [name, "440"] = CliResult.single 440 2 := rfl
  have hm : mainDispatch [name, "440,554,659"]
      = CliResult.multi [440, 554, 659] 2 := rfl
  refine ⟨hs, ?_, hm, ?_⟩
  · unfold main
    rw [hs]
    norm_num [runCli]
  · unfold main
    rw [hm]
    norm_num [runCli]

end FreqPlayer
